import Mathlib

/-!
# Verification of the nodekeeper validator core

Shallow embedding of the election scheduler (`src/cli/validator.rs`) and the
blockchain subscription engine (`src/network/subscription.rs`) of
`venom-blockchain/nodekeeper`, together with proofs of the specified
properties.

All machine integers of the source (`u32`, `u64`, `u128`, `usize`) are
modelled as `Nat`: the only arithmetic the embedded code performs on them is
saturating or checked subtraction, `max`/`min`, and additions that stay far
below the word size on all inputs the theorems touch, so no wrap-around has
to be modelled.  `i32` drift values and workchain ids are modelled as `Int`.
-/

namespace Nodekeeper

/-! ## Timeline calculator (`Timeline::compute`, src/cli/validator.rs) -/

/-- Elector timing parameters (`ton_block::ConfigParam15`).  Only the two
fields read by `Timeline::compute` are kept. -/
structure ConfigParam15 where
  elections_start_before : Nat
  elections_end_before : Nat
  deriving Repr, DecidableEq

/-- The three-state validation timeline phase (enum `Timeline`). -/
inductive Timeline where
  | beforeElections (until_elections_start : Nat)
  | elections (since_elections_start until_elections_end elections_end : Nat)
  | afterElections (until_round_end : Nat)
  deriving Repr, DecidableEq

/-- `true` exactly on the `Elections` variant. -/
def Timeline.isElections : Timeline → Bool
  | .elections _ _ _ => true
  | _ => false

/-- `true` exactly on the `AfterElections` variant. -/
def Timeline.isAfterElections : Timeline → Bool
  | .afterElections _ => true
  | _ => false

/-- `Timeline::compute`.  `vset_utime_until` is `current_vset.utime_until()`.
`saturating_sub` on `u32` is `Nat` subtraction; `checked_sub` is the
`if now ≤ x` guard (it yields `Some` exactly when the subtrahend does not
exceed the minuend). -/
def Timeline.compute (timings : ConfigParam15) (vset_utime_until : Nat)
    (now : Nat) : Timeline :=
  let round_end := vset_utime_until
  let elections_start := round_end - timings.elections_start_before
  let elections_end := round_end - timings.elections_end_before
  if now ≤ elections_start then
    .beforeElections (elections_start - now)
  else if now ≤ elections_end then
    .elections (now - elections_start) (elections_end - now) elections_end
  else
    .afterElections (round_end - now)

/-! ## Scheduler attempt loop (`ValidationManager::try_validate`) -/

/-- The sleep actually performed at the top of the `try_validate` loop for a
requested retry interval: a positive interval is clamped below by 10 seconds
(`interval = std::cmp::max(interval, 10)`); a zero interval skips the sleep. -/
def loopSleepSeconds (interval : Nat) : Nat :=
  if 0 < interval then max interval 10 else 0

/-- Outcome of one iteration of the `try_validate` loop, up to the point
where an election attempt is launched. -/
inductive IterOutcome where
  | restart (interval : Nat)
  | elect (elections_end : Nat) (election_id : Nat)
  deriving Repr, DecidableEq

/-- One iteration of the `try_validate` loop (timeline dispatch followed by
the election-id check), with the RPC results abstracted as inputs:
`gen_utime` is the target block's generation time and `election_id` the
elector data's current election id (`None` when absent).  Each
`checked_sub` of the source is a `≤` guard. -/
def tryValidateIteration (elections_start_offset elections_end_offset : Nat)
    (timings : ConfigParam15) (vset_utime_until gen_utime : Nat)
    (election_id : Option Nat) : IterOutcome :=
  match Timeline.compute timings vset_utime_until gen_utime with
  | .beforeElections until_elections_start =>
      .restart (until_elections_start + elections_start_offset)
  | .elections since_elections_start until_elections_end elections_end =>
      if since_elections_start ≤ elections_start_offset then
        .restart (elections_start_offset - since_elections_start)
      else if until_elections_end ≤ elections_end_offset then
        .restart (elections_end_offset - until_elections_end)
      else
        match election_id with
        | none => .restart 1
        | some id => .elect elections_end id
  | .afterElections until_round_end => .restart until_round_end

/-! ## Node sync wait (`ValidationManager::wait_until_synced`) -/

/-- The part of `RunningStats` read by `wait_until_synced` (the time drifts
are `i32` in the source). -/
structure RunningStats where
  mc_time_diff : Int
  sc_time_diff : Int
  deriving Repr, DecidableEq

/-- `NodeStats` as returned by `get_stats`. -/
inductive NodeStats where
  | running (stats : RunningStats)
  | notReady
  deriving Repr, DecidableEq

/-- The effective sync threshold built in `Cmd::run`:
`std::cmp::max(self.max_time_diff as i32, 5)` (`max_time_diff` is `u16`). -/
def effectiveMaxTimeDiff (max_time_diff : Nat) : Int :=
  max (max_time_diff : Int) 5

/-- Modelled from the spec: the validation configuration (type
`AppConfigValidation` of the `crate::config` module, which is not under
`src/`): a tagged union with variants *Single* (stake amount per round,
optional stake factor, expected wallet address) and *DePool* (pool address,
pool ABI family, expected owner wallet address, optional stake factor).
Addresses and the ABI family are abstracted as `Nat`. -/
inductive AppConfigValidation where
  | single (address stake_per_round : Nat) (stake_factor : Option Nat)
  | depool (depool depool_type owner : Nat) (stake_factor : Option Nat)
  deriving Repr, DecidableEq

/-- Modelled from the spec: `AppConfigValidation::is_single` (missing
`crate::config` module), `true` exactly on the *Single* (direct) variant;
`try_validate` passes it as the `only_mc` argument of
`wait_until_synced`. -/
def AppConfigValidation.is_single : AppConfigValidation → Bool
  | .single _ _ _ => true
  | .depool _ _ _ _ => false

/-- `ValidationManager::wait_until_synced`, with the `get_stats` RPC
abstracted as the list of its successive poll results.  It returns the first
`Running` stats satisfying
`stats.mc_time_diff < max_time_diff && (only_mc || stats.sc_time_diff < max_time_diff)`
(`None` when the poll stream is exhausted; the real loop polls forever every
10 seconds). -/
def wait_until_synced (max_time_diff : Int) (only_mc : Bool) :
    List NodeStats → Option RunningStats
  | [] => none
  | .running stats :: rest =>
      if stats.mc_time_diff < max_time_diff
          ∧ (only_mc = true ∨ stats.sc_time_diff < max_time_diff) then
        some stats
      else wait_until_synced max_time_diff only_mc rest
  | .notReady :: rest => wait_until_synced max_time_diff only_mc rest

/-! ## Direct election staking step (`AppConfigValidationSingle::elect`) -/

/-- Modelled from the spec: `ONE_EVER`, the base monetary unit — `10⁹` of
the chain's smallest denomination (a constant of the `crate::contracts`
module, which is not under `src/`). -/
def ONE_EVER : Nat := 10 ^ 9

/-- `DEFAULT_STAKE_FACTOR` (src/cli/validator.rs, last line). -/
def DEFAULT_STAKE_FACTOR : Nat := 196608

/-- The polling period of `wait_for_balance`
(`std::time::Duration::from_secs(1)`). -/
def balancePollIntervalSeconds : Nat := 1

/-- `wait_for_balance`, with the balance query abstracted as the list of its
successive results (`None` is an undeployed account, mapped to 0 by
`unwrap_or_default`).  Returns the first polled balance meeting the
target. -/
def wait_for_balance (target : Nat) : List (Option Nat) → Option Nat
  | [] => none
  | b :: rest =>
      let balance := b.getD 0
      if target ≤ balance then some balance
      else wait_for_balance target rest

/-- The staking step of `AppConfigValidationSingle::elect`: the balance
target polled for, the stake factor put into the `participate_in_elections`
payload, and the destination and amount of the election message. -/
structure SingleElectPlan where
  target_balance : Nat
  stake_factor : Nat
  amount : Nat
  dst : Nat
  deriving Repr, DecidableEq

/-- The staking parameters computed by `AppConfigValidationSingle::elect`
once it reaches the staking step (wallet address checked, recovery and
already-elected paths behind it):
`target_balance = stake_per_round + 2 * ONE_EVER`,
`stake_factor = self.stake_factor.unwrap_or(DEFAULT_STAKE_FACTOR)`, and the
election message carries `amount = stake_per_round + ONE_EVER` to the
elector address. -/
def singleElectPlan (stake_per_round : Nat) (stake_factor : Option Nat)
    (elector_address : Nat) : SingleElectPlan :=
  { target_balance := stake_per_round + 2 * ONE_EVER
    stake_factor := stake_factor.getD DEFAULT_STAKE_FACTOR
    amount := stake_per_round + ONE_EVER
    dst := elector_address }

/-! ## DePool update loop (`AppConfigValidationDePool::update_depool`) -/

/-- Modelled from the spec: the DePool round step classification of the
missing `crate::contracts::depool` module; the spec names the
`WaitingValidatorRequest` and `Completed` steps. -/
inductive RoundStep where
  | waitingValidatorRequest
  | completed
  deriving Repr, DecidableEq

/-- The fields of a DePool round read by `update_depool` (round ids are
`u64`, election times `u32`). -/
structure DePoolRound where
  id : Nat
  supposed_elected_at : Nat
  validator_stake : Nat
  step : RoundStep
  deriving Repr, DecidableEq

instance : Inhabited DePoolRound := ⟨⟨0, 0, 0, .waitingValidatorRequest⟩⟩

/-- One fetch of the DePool state as read by `update_depool`: the rounds in
their deterministic `get_rounds().into_values()` order.  (The
add-ordinary-stake step of an iteration only issues wallet calls and does
not influence the loop control or the returned value, so the participant
info is not modelled.) -/
structure DePoolSnapshot where
  rounds : List DePoolRound
  deriving Repr, DecidableEq

/-- The `update_depool` refresh loop.  `attempts` starts at 4; `future n`
is the DePool state obtained by the `n`-th refresh.  Returns the source's
result (`rounds[1]`'s id and step on a match, the propagated
`anyhow::ensure!` error otherwise) together with the number of loop
iterations executed.  The source's `attempts -= 1; ensure!(attempts > 0)`
is the `0 | 1 => error` arm. -/
def update_depool_loop (election_id : Nat) :
    Nat → DePoolSnapshot → (Nat → DePoolSnapshot) →
      Except String (Nat × RoundStep) × Nat
  | attempts, st, future =>
    if st.rounds.length = 4 then
      let target := st.rounds.getD 1 default
      if target.supposed_elected_at = election_id then
        (.ok (target.id, target.step), 1)
      else
        match attempts with
        | 0 => (.error "failed to update rounds", 1)
        | 1 => (.error "failed to update rounds", 1)
        | n + 2 =>
            let r := update_depool_loop election_id (n + 1) (future 0)
              fun i => future (i + 1)
            (r.1, r.2 + 1)
    else (.error "DePool rounds number mismatch", 1)

/-- `update_depool` proper: the refresh loop entered with a budget of 4
attempts (`let mut attempts = 4`). -/
def update_depool (election_id : Nat) (st : DePoolSnapshot)
    (future : Nat → DePoolSnapshot) : Except String (Nat × RoundStep) × Nat :=
  update_depool_loop election_id 4 st future

/-! ## Subscription engine data model (src/network/subscription.rs) -/

/-- A pending external message (`PendingMessage`): its expire-at timestamp
and its one-shot reply sender (an `Option` because `process_block` takes the
sender out before the record is dropped). -/
structure PendingMessage where
  expire_at : Nat
  tx : Option Unit
  deriving Repr, DecidableEq

/-- A transaction broadcast channel endpoint held in an account
subscription (`TransactionsTx`), abstracted to whether its receiving side
has been dropped (`is_closed`). -/
structure TransactionsTx where
  closed : Bool
  deriving Repr, DecidableEq

/-- `AccountSubscription`: the pending messages keyed by external-message
hash (the `FxHashMap` is modelled as an association list; 256-bit hashes
and account ids are abstracted as `Nat`) plus the transaction broadcast
channels. -/
structure AccountSubscription where
  pending_messages : List (Nat × PendingMessage)
  transactions : List TransactionsTx
  deriving Repr, DecidableEq

instance : Inhabited AccountSubscription := ⟨⟨[], []⟩⟩

/-- `AccountSubscription::is_empty`. -/
def AccountSubscription.is_empty (s : AccountSubscription) : Bool :=
  s.pending_messages.isEmpty && s.transactions.isEmpty

/-- The contribution of one account subscription to `subscription_count`:
its number of pending messages plus its number of broadcast channels. -/
def AccountSubscription.size (s : AccountSubscription) : Nat :=
  s.pending_messages.length + s.transactions.length

/-- One of the two `AccountSubscriptions` maps (the `FxDashMap` is modelled
as an association list). -/
abbrev AccountSubscriptions := List (Nat × AccountSubscription)

/-- The sum over a map of `|pending_messages| + |transactions channels|`. -/
def totalSize (subs : AccountSubscriptions) : Nat :=
  (subs.map fun p => p.2.size).sum

/-- `DashMap::entry(key).or_default()` followed by an in-place mutation:
applies `f` to the entry at `a`, inserting `f default` when the key is
absent. -/
def upsert (subs : AccountSubscriptions) (a : Nat)
    (f : AccountSubscription → AccountSubscription) : AccountSubscriptions :=
  match subs with
  | [] => [(a, f default)]
  | (b, s) :: rest =>
      if b = a then (b, f s) :: rest else (b, s) :: upsert rest a f

/-- Map lookup. -/
def lookupSub (subs : AccountSubscriptions) (a : Nat) :
    Option AccountSubscription :=
  match subs with
  | [] => none
  | (b, s) :: rest => if b = a then some s else lookupSub rest a

/-- Whether `msg_hash` is already a pending message of account `dst` (the
`Occupied` arm of `subscription.pending_messages.entry(msg_hash)` in
`send_message`). -/
def hashOccupied (subs : AccountSubscriptions) (dst h : Nat) : Bool :=
  match lookupSub subs dst with
  | some s => s.pending_messages.any fun p => p.1 == h
  | none => false

/-- The error-path cleanup of `send_message` (transmit failed): find the
account entry; when present (`Occupied`), remove the pending message, count
one counter decrement (the source decrements unconditionally in that arm)
and drop the entry when it became empty; when absent (`Vacant`), only warn.
Returns the new map and the number of counter decrements. -/
def removeOnFail (subs : AccountSubscriptions) (dst h : Nat) :
    AccountSubscriptions × Nat :=
  match subs with
  | [] => ([], 0)
  | (b, s) :: rest =>
      if b = dst then
        let s' : AccountSubscription :=
          { s with
            pending_messages := s.pending_messages.eraseP fun p => p.1 == h }
        if s'.is_empty then (rest, 1) else ((b, s') :: rest, 1)
      else
        let r := removeOnFail rest dst h
        ((b, s) :: r.1, r.2)

/-- The result of a `send_message` call as far as the sequential model goes:
the successful path leaves the pending message in the map and awaits the
one-shot reply. -/
inductive SendMessageResult where
  | unsupportedWorkchain
  | alreadySent
  | transmitError
  | awaitingReply
  deriving Repr, DecidableEq

/-- The engine state the counting invariant speaks about: the two maps and
`subscription_count`. -/
structure SubscriptionState where
  mc_subscriptions : AccountSubscriptions
  sc_subscriptions : AccountSubscriptions
  subscription_count : Nat
  deriving Repr, DecidableEq

/-- The state right after `Subscription::new`: empty maps, zero counter. -/
def SubscriptionState.init : SubscriptionState := ⟨[], [], 0⟩

/-- `ton_block::MASTERCHAIN_ID`. -/
def MASTERCHAIN_ID : Int := -1

/-- `ton_block::BASE_WORKCHAIN_ID`. -/
def BASE_WORKCHAIN_ID : Int := 0

/-- `send_message` on one workchain's map, from the occupancy check to the
transmit outcome (`transmitOk` abstracts the `node_tcp_rpc.send_message`
call).  Returns the new map and counter, the result, and whether the message
bytes were handed to the node. -/
def sendMessageOnMap (subs : AccountSubscriptions) (cnt : Nat)
    (dst h expire_at : Nat) (transmitOk : Bool) :
    (AccountSubscriptions × Nat) × SendMessageResult × Bool :=
  if hashOccupied subs dst h then ((subs, cnt), .alreadySent, false)
  else
    let subs1 := upsert subs dst fun s =>
      { s with
        pending_messages := (h, ⟨expire_at, some ()⟩) :: s.pending_messages }
    let cnt1 := cnt + 1
    if transmitOk then ((subs1, cnt1), .awaitingReply, true)
    else
      let r := removeOnFail subs1 dst h
      ((r.1, cnt1 - r.2), .transmitError, true)

/-- `Subscription::send_message`, after the external-message header has been
split by `split_address` into `(workchain, dst)` and the message cell hashed
to `h`.  A workchain other than the masterchain or the base workchain is the
`unsupported workchain` bail-out. -/
def send_message (st : SubscriptionState) (workchain : Int)
    (dst h expire_at : Nat) (transmitOk : Bool) :
    SubscriptionState × SendMessageResult × Bool :=
  if workchain = MASTERCHAIN_ID then
    let r := sendMessageOnMap st.mc_subscriptions st.subscription_count
      dst h expire_at transmitOk
    ({ st with mc_subscriptions := r.1.1, subscription_count := r.1.2 }, r.2)
  else if workchain = BASE_WORKCHAIN_ID then
    let r := sendMessageOnMap st.sc_subscriptions st.subscription_count
      dst h expire_at transmitOk
    ({ st with sc_subscriptions := r.1.1, subscription_count := r.1.2 }, r.2)
  else (st, .unsupportedWorkchain, false)

/-- `Subscription::subscribe`: push a fresh (open) broadcast channel onto
the account's entry in the masterchain map (when the address is on the
masterchain) or the shard map (otherwise), and increment the counter. -/
def subscribe (st : SubscriptionState) (is_mc : Bool) (addr : Nat) :
    SubscriptionState :=
  if is_mc then
    { st with
      mc_subscriptions := upsert st.mc_subscriptions addr fun s =>
        { s with transactions := s.transactions ++ [⟨false⟩] }
      subscription_count := st.subscription_count + 1 }
  else
    { st with
      sc_subscriptions := upsert st.sc_subscriptions addr fun s =>
        { s with transactions := s.transactions ++ [⟨false⟩] }
      subscription_count := st.subscription_count + 1 }

/-- A transaction as seen by `process_block`: its cell hash and the hash of
its inbound message when it has one. -/
structure TransactionRecord where
  hash : Nat
  in_msg_hash : Option Nat
  deriving Repr, DecidableEq

/-- `process_block`'s handling of one transaction of a subscribed account:
clone-broadcast to every channel (which does not change the engine state;
send errors are ignored), then remove the pending message matching the
inbound message hash, if any, counting one counter decrement; the matched
transaction is sent down the taken one-shot sender. -/
def processTransaction (acc : AccountSubscription × Nat)
    (t : TransactionRecord) : AccountSubscription × Nat :=
  match t.in_msg_hash with
  | none => acc
  | some h =>
      if acc.1.pending_messages.any (fun p => p.1 == h) then
        ({ acc.1 with
            pending_messages := acc.1.pending_messages.eraseP fun p => p.1 == h },
          acc.2 + 1)
      else acc

/-- Apply `f` to the entry at `a` when present and not empty (the `get_mut`
plus `is_empty` skip at the top of `process_block`'s per-account closure);
returns the new map and the counter decrements reported by `f`. -/
def modifyEntry (subs : AccountSubscriptions) (a : Nat)
    (f : AccountSubscription → AccountSubscription × Nat) :
    AccountSubscriptions × Nat :=
  match subs with
  | [] => ([], 0)
  | (b, s) :: rest =>
      if b = a then
        if s.is_empty then ((b, s) :: rest, 0)
        else
          let r := f s
          ((b, r.1) :: rest, r.2)
      else
        let r := modifyEntry rest a f
        ((b, s) :: r.1, r.2)

/-- `Subscription::process_block` over one map: the block is abstracted as
its account blocks, each an account id with its transactions in order, and
the account blocks are processed sequentially against the map. -/
def process_block (subs : AccountSubscriptions) :
    List (Nat × List TransactionRecord) → AccountSubscriptions × Nat
  | [] => (subs, 0)
  | (addr, txs) :: rest =>
      let r := modifyEntry subs addr fun s => txs.foldl processTransaction (s, 0)
      let r' := process_block r.1 rest
      (r'.1, r.2 + r'.2)

/-- One account entry's pass of `subscriptions_gc`: retain pending messages
that are not expired (`is_invalid = expire_at < utime`) and channels that
are not closed, counting one counter decrement per dropped element. -/
def gcAccount (utime : Nat) (s : AccountSubscription) :
    AccountSubscription × Nat :=
  let keptMessages := s.pending_messages.filter
    fun p => !decide (p.2.expire_at < utime)
  let droppedMessages := s.pending_messages.filter
    fun p => decide (p.2.expire_at < utime)
  let keptChannels := s.transactions.filter fun t => !t.closed
  let droppedChannels := s.transactions.filter fun t => t.closed
  (⟨keptMessages, keptChannels⟩, droppedMessages.length + droppedChannels.length)

/-- `Subscription::subscriptions_gc`: GC every entry with the masterchain
generation time as the clock, then drop the entries that became empty.
Returns the new map and the number of counter decrements. -/
def subscriptions_gc (subs : AccountSubscriptions) (utime : Nat) :
    AccountSubscriptions × Nat :=
  match subs with
  | [] => ([], 0)
  | (a, s) :: rest =>
      let g := gcAccount utime s
      let r := subscriptions_gc rest utime
      (if g.1.is_empty then r.1 else (a, g.1) :: r.1, g.2 + r.2)

/-- A `process_block` call applied to the engine state (the walker applies
it to the shard map for every shard block and to the masterchain map for the
next masterchain block; `fetch_sub` per match). -/
def applyProcessBlock (st : SubscriptionState) (is_mc : Bool)
    (blk : List (Nat × List TransactionRecord)) : SubscriptionState :=
  if is_mc then
    let r := process_block st.mc_subscriptions blk
    { st with
      mc_subscriptions := r.1
      subscription_count := st.subscription_count - r.2 }
  else
    let r := process_block st.sc_subscriptions blk
    { st with
      sc_subscriptions := r.1
      subscription_count := st.subscription_count - r.2 }

/-- The GC pass of one walker step applied to the engine state: both maps
are collected with the same clock. -/
def applyGc (st : SubscriptionState) (utime : Nat) : SubscriptionState :=
  let rm := subscriptions_gc st.mc_subscriptions utime
  let rs := subscriptions_gc st.sc_subscriptions utime
  { mc_subscriptions := rm.1
    sc_subscriptions := rs.1
    subscription_count := st.subscription_count - (rm.2 + rs.2) }

/-- One engine operation, as enumerated by the counting-invariant claim:
`subscribe`, a full `send_message` call (covering both the insertion and the
failure-removal), `process_block` matching, and `subscriptions_gc`. -/
inductive Step : SubscriptionState → SubscriptionState → Prop where
  | subscribe {st : SubscriptionState} (is_mc : Bool) (addr : Nat) :
      Step st (Nodekeeper.subscribe st is_mc addr)
  | send {st : SubscriptionState} (workchain : Int)
      (dst h expire_at : Nat) (transmitOk : Bool) :
      Step st (send_message st workchain dst h expire_at transmitOk).1
  | processBlock {st : SubscriptionState} (is_mc : Bool)
      (blk : List (Nat × List TransactionRecord)) :
      Step st (applyProcessBlock st is_mc blk)
  | gc {st : SubscriptionState} (utime : Nat) :
      Step st (applyGc st utime)

/-- The engine states reachable from the freshly constructed engine under
the operations of `Step`. -/
inductive Reachable : SubscriptionState → Prop where
  | init : Reachable SubscriptionState.init
  | step {st st' : SubscriptionState} :
      Reachable st → Step st st' → Reachable st'

/-- The values sent on the one-shot reply channel by `PendingMessage`'s
`Drop` impl: the `None` sentinel when the sender is still owned, nothing
when it was already taken. -/
def PendingMessage.dropSends (pm : PendingMessage) : List (Option Nat) :=
  match pm.tx with
  | some _ => [none]
  | none => []

/-- The values sent on the reply channel when `process_block` matches a
pending message against transaction `tx_hash`: the transaction is sent
through the taken sender, then the record — its sender now taken — is
dropped at the end of the scope. -/
def matchedSends (pm : PendingMessage) (tx_hash : Nat) : List (Option Nat) :=
  (match pm.tx with
    | some _ => [some tx_hash]
    | none => []) ++ PendingMessage.dropSends { pm with tx := none }

/-! ## Theorems -/

/-- C1 (counterexample): with `elections_start_before = 300`,
`elections_end_before = 100`, `round_end = 1000` (so `elections_start = 700`,
`elections_end = 900`), the code yields `BeforeElections 0` at
`now = elections_start` (the claim demands the `Elections` variant) and the
`Elections` variant with `until = 0` at `now = elections_end` (the claim
demands `AfterElections`). -/
theorem timeline_boundary_counterexample :
    Timeline.compute ⟨300, 100⟩ 1000 700 = .beforeElections 0
    ∧ (Timeline.compute ⟨300, 100⟩ 1000 700).isElections = false
    ∧ Timeline.compute ⟨300, 100⟩ 1000 900 = .elections 200 0 900
    ∧ (Timeline.compute ⟨300, 100⟩ 1000 900).isAfterElections = false := by
  decide

/-- C1 (amended): both `checked_sub` guards of `Timeline::compute` are
inclusive, so with `elections_start = round_end − elections_start_before` and
`elections_end = round_end − elections_end_before`
(`elections_start < elections_end < round_end`): at `now = elections_start`
the result is `BeforeElections` with 0 seconds remaining; at
`now = elections_end − 1` (when `elections_start + 1 < elections_end`) the
result is `Elections` with `until_elections_end = 1`; at
`now = elections_end` the result is still `Elections` with
`until_elections_end = 0`; `AfterElections` first appears at
`now = elections_end + 1`. -/
theorem timeline_boundaries (timings : ConfigParam15) (round_end : Nat)
    (h1 : timings.elections_end_before < timings.elections_start_before)
    (h2 : timings.elections_start_before ≤ round_end) :
    Timeline.compute timings round_end (round_end - timings.elections_start_before)
      = .beforeElections 0
    ∧ (round_end - timings.elections_start_before + 1
          < round_end - timings.elections_end_before →
        Timeline.compute timings round_end
            (round_end - timings.elections_end_before - 1)
          = .elections
              (round_end - timings.elections_end_before - 1
                - (round_end - timings.elections_start_before))
              1 (round_end - timings.elections_end_before))
    ∧ Timeline.compute timings round_end (round_end - timings.elections_end_before)
        = .elections
            (round_end - timings.elections_end_before
              - (round_end - timings.elections_start_before))
            0 (round_end - timings.elections_end_before)
    ∧ Timeline.compute timings round_end
          (round_end - timings.elections_end_before + 1)
        = .afterElections
            (round_end - (round_end - timings.elections_end_before + 1)) := by
  refine ⟨?_, fun hlt => ?_, ?_, ?_⟩
  · simp [Timeline.compute]
  · unfold Timeline.compute
    rw [if_neg (by omega), if_pos (by omega)]
    congr 1
    omega
  · unfold Timeline.compute
    rw [if_neg (by omega), if_pos (by omega)]
    congr 1
    omega
  · unfold Timeline.compute
    rw [if_neg (by omega), if_neg (by omega)]

/-- C1 (witness): the amended boundary theorem instantiated at
`elections_start_before = 300`, `elections_end_before = 100`,
`round_end = 1000`. -/
theorem timeline_boundaries_witness :
    Timeline.compute ⟨300, 100⟩ 1000 700 = .beforeElections 0
    ∧ (700 + 1 < 900 →
        Timeline.compute ⟨300, 100⟩ 1000 899 = .elections (899 - 700) 1 900)
    ∧ Timeline.compute ⟨300, 100⟩ 1000 900 = .elections (900 - 700) 0 900
    ∧ Timeline.compute ⟨300, 100⟩ 1000 901 = .afterElections (1000 - 901) :=
  timeline_boundaries ⟨300, 100⟩ 1000 (by decide) (by decide)

/-- C3 (counterexample): a concrete in-window attempt with no current
election id requests a 1-second retry interval, but the sleep performed at
the top of the attempt loop clamps it to 10 seconds, so the scheduler does
not sleep exactly 1 second. -/
theorem no_election_id_sleep_counterexample :
    tryValidateIteration 600 120 ⟨2000, 200⟩ 10000 8700 none = .restart 1
    ∧ loopSleepSeconds 1 = 10 ∧ (10 : Nat) ≠ 1 := by
  decide

/-- C3 (amended): in every scheduler attempt that reaches the elector read
inside the elections window and finds no current election id, the iteration
restarts with a requested interval of 1 second, and the attempt-loop sleep
clamps every positive requested interval to at least 10, so the scheduler
sleeps exactly 10 seconds before restarting. -/
theorem no_election_id_restarts_after_ten_seconds
    (elections_start_offset elections_end_offset : Nat)
    (timings : ConfigParam15) (vset_utime_until gen_utime s u ee : Nat)
    (hc : Timeline.compute timings vset_utime_until gen_utime
            = .elections s u ee)
    (hs : elections_start_offset < s) (hu : elections_end_offset < u) :
    tryValidateIteration elections_start_offset elections_end_offset
        timings vset_utime_until gen_utime none = .restart 1
    ∧ loopSleepSeconds 1 = 10 := by
  refine ⟨?_, by decide⟩
  simp only [tryValidateIteration, hc]
  rw [if_neg (by omega), if_neg (by omega)]

/-- C3 (witness): the amended theorem instantiated at a concrete in-window
attempt. -/
theorem no_election_id_restarts_witness :
    tryValidateIteration 600 120 ⟨2000, 200⟩ 10000 8700 none = .restart 1
    ∧ loopSleepSeconds 1 = 10 :=
  no_election_id_restarts_after_ten_seconds 600 120 ⟨2000, 200⟩ 10000 8700
    700 1100 9800 (by decide) (by decide) (by decide)

/-- Any stats returned by `wait_until_synced` came from a `Running` poll and
satisfy the drift bound: the masterchain drift always, the shard drift
whenever `only_mc = false`. -/
theorem wait_until_synced_sound (m : Int) (only_mc : Bool)
    (polls : List NodeStats) (stats : RunningStats)
    (h : wait_until_synced m only_mc polls = some stats) :
    NodeStats.running stats ∈ polls ∧ stats.mc_time_diff < m
    ∧ (only_mc = false → stats.sc_time_diff < m) := by
  induction polls with
  | nil => simp [wait_until_synced] at h
  | cons p rest ih =>
    cases p with
    | running s =>
      rw [wait_until_synced] at h
      split at h
      · rename_i hcond
        cases h
        refine ⟨List.mem_cons_self _ _, hcond.1, fun honly => ?_⟩
        rcases hcond.2 with h' | h'
        · rw [honly] at h'; cases h'
        · exact h'
      · obtain ⟨hmem, h1, h2⟩ := ih h
        exact ⟨List.mem_cons_of_mem _ hmem, h1, h2⟩
    | notReady =>
      rw [wait_until_synced] at h
      obtain ⟨hmem, h1, h2⟩ := ih h
      exact ⟨List.mem_cons_of_mem _ hmem, h1, h2⟩

/-- C2 (counterexample): in *Single* mode (`only_mc = true`) the sync wait
accepts stats whose shard drift is arbitrarily large — here `10000` against
the effective bound `120` — contradicting the claim that direct mode
additionally requires the shard drift below the bound. -/
theorem wait_until_synced_counterexample :
    wait_until_synced (effectiveMaxTimeDiff 120)
        (AppConfigValidation.single 0 0 none).is_single
        [.running ⟨0, 10000⟩] = some ⟨0, 10000⟩
    ∧ ¬((10000 : Int) < effectiveMaxTimeDiff 120) := by
  decide

/-- C2 (amended): the node-sync wait returns only when the node reports
`Running` stats whose masterchain drift is strictly below the effective
`max_time_diff` (the configured value floored at 5); the shard-drift
condition is additionally required exactly in the delegated (*DePool*) mode
(`is_single = false`, i.e. `only_mc = false`), not in the direct (*Single*)
mode. -/
theorem node_sync_drift_bounds (max_time_diff : Nat)
    (v : AppConfigValidation) (polls : List NodeStats) (stats : RunningStats)
    (h : wait_until_synced (effectiveMaxTimeDiff max_time_diff)
          v.is_single polls = some stats) :
    NodeStats.running stats ∈ polls
    ∧ stats.mc_time_diff < effectiveMaxTimeDiff max_time_diff
    ∧ (v.is_single = false →
        stats.sc_time_diff < effectiveMaxTimeDiff max_time_diff) :=
  wait_until_synced_sound _ _ polls stats h

/-- C2 (witness): the amended theorem instantiated in *DePool* mode on a
concrete poll stream. -/
theorem node_sync_drift_bounds_witness :
    NodeStats.running ⟨3, 4⟩ ∈ [NodeStats.notReady, NodeStats.running ⟨3, 4⟩]
    ∧ (3 : Int) < effectiveMaxTimeDiff 120
    ∧ ((AppConfigValidation.depool 0 0 0 none).is_single = false →
        (4 : Int) < effectiveMaxTimeDiff 120) :=
  node_sync_drift_bounds 120 (.depool 0 0 0 none)
    [.notReady, .running ⟨3, 4⟩] ⟨3, 4⟩ (by decide)

/-- A balance returned by `wait_for_balance` meets the target. -/
theorem wait_for_balance_ge (target : Nat) (polls : List (Option Nat))
    (b : Nat) (h : wait_for_balance target polls = some b) : target ≤ b := by
  induction polls with
  | nil => simp [wait_for_balance] at h
  | cons p rest ih =>
    rw [wait_for_balance] at h
    split at h
    · cases h; assumption
    · exact ih h

/-- C8: in the direct-mode staking step the polled balance target is exactly
`stake_per_round + 2 × base_unit` (and `wait_for_balance` only returns a
balance meeting it, polling at 1-second intervals), the election message is
sent to the elector with amount exactly `stake_per_round + 1 × base_unit`,
and an unconfigured stake factor defaults to `0x30000 = 196608`. -/
theorem single_elect_staking (s : Nat) (sf : Option Nat) (ea : Nat) :
    (singleElectPlan s sf ea).target_balance = s + 2 * ONE_EVER
    ∧ (∀ polls b,
        wait_for_balance (singleElectPlan s sf ea).target_balance polls
            = some b →
          (singleElectPlan s sf ea).target_balance ≤ b)
    ∧ balancePollIntervalSeconds = 1
    ∧ (singleElectPlan s sf ea).amount = s + 1 * ONE_EVER
    ∧ (singleElectPlan s sf ea).dst = ea
    ∧ (singleElectPlan s none ea).stake_factor = 196608
    ∧ DEFAULT_STAKE_FACTOR = 0x30000 :=
  ⟨rfl, fun polls b h => wait_for_balance_ge _ polls b h, rfl,
    by simp [singleElectPlan], rfl, rfl, rfl⟩

/-- C8 (witness): the staking theorem applied at a concrete configuration
and a concrete balance-poll stream. -/
theorem single_elect_staking_witness :
    (singleElectPlan 5 none 7).target_balance ≤ 3000000005 :=
  (single_elect_staking 5 none 7).2.1 [some 3000000005] 3000000005 (by decide)

/-- With a positive attempt budget, the `update_depool` refresh loop runs at
most `attempts` iterations. -/
theorem update_depool_loop_iter_le (eid : Nat) :
    ∀ (a : Nat), 0 < a → ∀ (st : DePoolSnapshot) (future : Nat → DePoolSnapshot),
      (update_depool_loop eid a st future).2 ≤ a := by
  intro a
  induction a using Nat.strong_induction_on with
  | _ a ih =>
    intro ha st future
    rw [update_depool_loop.eq_def]
    dsimp only
    split
    · split
      · simpa using ha
      · match a, ha with
        | 1, _ => simp
        | n + 2, _ =>
          have h := ih (n + 1) (by omega) (by omega) (future 0)
            fun i => future (i + 1)
          dsimp only
          omega
    · simpa using ha

/-- A mismatching iteration of the refresh loop with budget left recurses on
the next refreshed state, adding one iteration. -/
theorem update_depool_loop_mismatch_step (eid n : Nat) (st : DePoolSnapshot)
    (future : Nat → DePoolSnapshot) (hlen : st.rounds.length = 4)
    (hne : (st.rounds.getD 1 default).supposed_elected_at ≠ eid) :
    update_depool_loop eid (n + 2) st future
      = ((update_depool_loop eid (n + 1) (future 0) fun i => future (i + 1)).1,
         (update_depool_loop eid (n + 1) (future 0) fun i => future (i + 1)).2
           + 1) := by
  rw [update_depool_loop.eq_def]
  dsimp only
  rw [if_pos hlen, if_neg hne]

/-- A mismatching iteration with the budget exhausted fails. -/
theorem update_depool_loop_mismatch_last (eid : Nat) (st : DePoolSnapshot)
    (future : Nat → DePoolSnapshot) (hlen : st.rounds.length = 4)
    (hne : (st.rounds.getD 1 default).supposed_elected_at ≠ eid) :
    update_depool_loop eid 1 st future
      = (.error "failed to update rounds", 1) := by
  rw [update_depool_loop.eq_def]
  dsimp only
  rw [if_pos hlen, if_neg hne]

/-- C9: `update_depool` runs its refresh loop at most 4 iterations; an
iteration whose target round (`rounds[1]`) has
`supposed_elected_at = election_id` returns that round's id and step
immediately; and when the first four states (the initial one and three
refreshes) all mismatch, the subroutine fails with the
`failed to update rounds` error after exactly 4 iterations instead of
looping further. -/
theorem update_depool_bounded (eid : Nat) (st : DePoolSnapshot)
    (future : Nat → DePoolSnapshot) :
    (update_depool eid st future).2 ≤ 4
    ∧ (st.rounds.length = 4 →
        (st.rounds.getD 1 default).supposed_elected_at = eid →
        update_depool eid st future
          = (.ok ((st.rounds.getD 1 default).id,
                  (st.rounds.getD 1 default).step), 1))
    ∧ ((∀ s ∈ [st, future 0, future 1, future 2],
          s.rounds.length = 4
          ∧ (s.rounds.getD 1 default).supposed_elected_at ≠ eid) →
        update_depool eid st future
          = (.error "failed to update rounds", 4)) := by
  refine ⟨update_depool_loop_iter_le eid 4 (by omega) st future, ?_, ?_⟩
  · intro hlen hmatch
    rw [update_depool, update_depool_loop.eq_def]
    dsimp only
    rw [if_pos hlen, if_pos hmatch]
  · intro hall
    obtain ⟨hl0, hn0⟩ := hall st (by simp)
    obtain ⟨hl1, hn1⟩ := hall (future 0) (by simp)
    obtain ⟨hl2, hn2⟩ := hall (future 1) (by simp)
    obtain ⟨hl3, hn3⟩ := hall (future 2) (by simp)
    rw [update_depool,
      update_depool_loop_mismatch_step eid 2 st future hl0 hn0,
      update_depool_loop_mismatch_step eid 1 (future 0) _ hl1 hn1,
      update_depool_loop_mismatch_step eid 0 (future 1) _ hl2 hn2,
      update_depool_loop_mismatch_last eid (future 2) _ hl3 hn3]

/-- C9 (witness): the bound theorem applied to a concrete pool whose four
rounds never match the election id: the loop fails after exactly 4
iterations. -/
theorem update_depool_bounded_witness :
    update_depool 9
        ⟨[⟨0, 5, 0, .completed⟩, ⟨1, 5, 0, .completed⟩,
          ⟨2, 5, 0, .completed⟩, ⟨3, 5, 0, .completed⟩]⟩
        (fun _ =>
          ⟨[⟨0, 5, 0, .completed⟩, ⟨1, 5, 0, .completed⟩,
            ⟨2, 5, 0, .completed⟩, ⟨3, 5, 0, .completed⟩]⟩)
      = (.error "failed to update rounds", 4) :=
  (update_depool_bounded 9 _ _).2.2 (by decide)

/-- Filtering a list by a Boolean predicate and by its negation partitions
its length. -/
theorem length_filter_split {α : Type} (p q : α → Bool)
    (hpq : ∀ a, q a = !p a) (l : List α) :
    (l.filter p).length + (l.filter q).length = l.length := by
  induction l with
  | nil => rfl
  | cons a l ih =>
    rw [List.filter_cons, List.filter_cons, hpq a]
    cases hp : p a
    · simp only [Bool.not_false, if_pos, if_neg, Bool.false_eq_true,
        ite_false, ite_true, List.length_cons]
      omega
    · simp only [Bool.not_true, Bool.false_eq_true, ite_false, ite_true,
        List.length_cons]
      omega

/-- A filtered list satisfies the filtering predicate everywhere. -/
theorem all_filter_self {α : Type} (p : α → Bool) (l : List α) :
    (l.filter p).all p = true := by
  rw [List.all_eq_true]
  intro a ha
  exact (List.mem_filter.1 ha).2

/-- An empty account subscription contributes nothing to the counter. -/
theorem size_eq_zero_of_is_empty (s : AccountSubscription)
    (h : s.is_empty = true) : s.size = 0 := by
  unfold AccountSubscription.is_empty at h
  rw [Bool.and_eq_true] at h
  obtain ⟨h1, h2⟩ := h
  simp [AccountSubscription.size, List.isEmpty_iff.1 h1, List.isEmpty_iff.1 h2]

/-- `totalSize` unfolded over a cons cell. -/
theorem totalSize_cons (a : Nat) (s : AccountSubscription)
    (rest : AccountSubscriptions) :
    totalSize ((a, s) :: rest) = s.size + totalSize rest := by
  simp [totalSize]

/-- GC of one account entry decrements the counter by exactly the number of
elements it drops. -/
theorem gcAccount_size (utime : Nat) (s : AccountSubscription) :
    (gcAccount utime s).1.size + (gcAccount utime s).2 = s.size := by
  have h1 := length_filter_split
    (fun p : Nat × PendingMessage => !decide (p.2.expire_at < utime))
    (fun p => decide (p.2.expire_at < utime)) (fun a => by simp)
    s.pending_messages
  have h2 := length_filter_split (fun t : TransactionsTx => !t.closed)
    (fun t => t.closed) (fun a => by simp) s.transactions
  unfold gcAccount AccountSubscription.size
  dsimp only
  omega

/-- The counter decrements of a GC pass equal the total size it removes
from the map. -/
theorem subscriptions_gc_size (subs : AccountSubscriptions) (utime : Nat) :
    (subscriptions_gc subs utime).2
      + totalSize (subscriptions_gc subs utime).1 = totalSize subs := by
  induction subs with
  | nil => rfl
  | cons p rest ih =>
    obtain ⟨a, s⟩ := p
    rw [subscriptions_gc.eq_def]
    dsimp only
    have hg := gcAccount_size utime s
    by_cases he : (gcAccount utime s).1.is_empty
    · have h0 := size_eq_zero_of_is_empty _ he
      rw [if_pos he, totalSize_cons]
      omega
    · rw [if_neg he, totalSize_cons, totalSize_cons]
      omega

/-- C4: after a GC pass with clock `utime`, every surviving entry has no
pending message with `expire_at < utime`, no closed broadcast channel, and
is not empty (empty entries are removed); and the counter is decremented
exactly once per removed pending message and once per removed channel
(the decrements equal the size removed from the map). -/
theorem subscriptions_gc_pass (subs : AccountSubscriptions) (utime : Nat) :
    ((subscriptions_gc subs utime).1.all fun p =>
        (p.2.pending_messages.all fun q => !decide (q.2.expire_at < utime))
        && (p.2.transactions.all fun t => !t.closed)
        && !p.2.is_empty) = true
    ∧ (subscriptions_gc subs utime).2
        + totalSize (subscriptions_gc subs utime).1 = totalSize subs := by
  refine ⟨?_, subscriptions_gc_size subs utime⟩
  induction subs with
  | nil => rfl
  | cons p rest ih =>
    obtain ⟨a, s⟩ := p
    rw [subscriptions_gc.eq_def]
    dsimp only
    by_cases he : (gcAccount utime s).1.is_empty
    · rw [if_pos he]
      exact ih
    · rw [if_neg he, List.all_cons, Bool.and_eq_true]
      refine ⟨?_, ih⟩
      have hn : (!(gcAccount utime s).1.is_empty) = true := by
        simp [he]
      rw [Bool.and_eq_true, Bool.and_eq_true]
      exact ⟨⟨all_filter_self _ _, all_filter_self _ _⟩, hn⟩

/-- `upsert` changes the total size by what the entry mutation adds: the
mutation `f` grows any entry's size by `k` (also the fresh default entry's),
so the map's total grows by `k`. -/
theorem totalSize_upsert (subs : AccountSubscriptions) (a : Nat) (k : Nat)
    (f : AccountSubscription → AccountSubscription)
    (hf : ∀ s, (f s).size = s.size + k) :
    totalSize (upsert subs a f) = totalSize subs + k := by
  induction subs with
  | nil =>
      show totalSize [(a, f default)] = totalSize [] + k
      rw [totalSize_cons, hf]
      rfl
  | cons p rest ih =>
    obtain ⟨b, s⟩ := p
    rw [upsert.eq_def]
    dsimp only
    by_cases hb : b = a
    · rw [if_pos hb, totalSize_cons, totalSize_cons, hf]
      omega
    · rw [if_neg hb, totalSize_cons, totalSize_cons, ih]
      omega

/-- Erasing by a predicate some element satisfies removes exactly one
element. -/
theorem length_eraseP_of_any {α : Type} (p : α → Bool) (l : List α) (x : α)
    (hx : x ∈ l) (hpx : p x = true) :
    (l.eraseP p).length + 1 = l.length :=
  List.length_eraseP_add_one hx hpx

/-- Processing one transaction preserves size-plus-decrements. -/
theorem processTransaction_size (acc : AccountSubscription × Nat)
    (t : TransactionRecord) :
    (processTransaction acc t).1.size + (processTransaction acc t).2
      = acc.1.size + acc.2 := by
  obtain ⟨s, d⟩ := acc
  rw [processTransaction.eq_def]
  cases t.in_msg_hash with
  | none => rfl
  | some h =>
    dsimp only
    by_cases hany : s.pending_messages.any (fun p => p.1 == h)
    · rw [if_pos hany]
      obtain ⟨x, hx, hpx⟩ := List.any_eq_true.1 hany
      have hlen := length_eraseP_of_any (fun p => p.1 == h)
        s.pending_messages x hx hpx
      dsimp only
      unfold AccountSubscription.size
      dsimp only
      omega
    · rw [if_neg hany]

/-- Folding `processTransaction` over a transaction list preserves
size-plus-decrements. -/
theorem foldl_processTransaction_size (txs : List TransactionRecord)
    (s : AccountSubscription) (d : Nat) :
    (txs.foldl processTransaction (s, d)).1.size
      + (txs.foldl processTransaction (s, d)).2 = s.size + d := by
  induction txs generalizing s d with
  | nil => rfl
  | cons t txs ih =>
    rw [List.foldl_cons]
    have h := processTransaction_size (s, d) t
    exact (ih (processTransaction (s, d) t).1
      (processTransaction (s, d) t).2).trans h

/-- `modifyEntry` with a size-preserving entry transformation preserves the
map's total size plus the reported decrements. -/
theorem modifyEntry_size (subs : AccountSubscriptions) (a : Nat)
    (f : AccountSubscription → AccountSubscription × Nat)
    (hf : ∀ s, (f s).1.size + (f s).2 = s.size) :
    totalSize (modifyEntry subs a f).1 + (modifyEntry subs a f).2
      = totalSize subs := by
  induction subs with
  | nil => rfl
  | cons p rest ih =>
    obtain ⟨b, s⟩ := p
    rw [modifyEntry.eq_def]
    dsimp only
    by_cases hb : b = a
    · rw [if_pos hb]
      by_cases he : s.is_empty
      · rw [if_pos he]
        dsimp only
        rw [totalSize_cons]
        omega
      · rw [if_neg he]
        dsimp only
        rw [totalSize_cons, totalSize_cons]
        have := hf s
        omega
    · rw [if_neg hb]
      dsimp only
      rw [totalSize_cons, totalSize_cons]
      omega

/-- `process_block` decrements the counter by exactly the total size it
removes from the map. -/
theorem process_block_size (blk : List (Nat × List TransactionRecord))
    (subs : AccountSubscriptions) :
    totalSize (process_block subs blk).1 + (process_block subs blk).2
      = totalSize subs := by
  induction blk generalizing subs with
  | nil => rfl
  | cons ab rest ih =>
    obtain ⟨addr, txs⟩ := ab
    rw [process_block.eq_def]
    dsimp only
    have hme := modifyEntry_size subs addr
      (fun s => txs.foldl processTransaction (s, 0))
      (fun s => by simpa using foldl_processTransaction_size txs s 0)
    have hrest := ih (modifyEntry subs addr
      fun s => txs.foldl processTransaction (s, 0)).1
    omega

/-- The default (`or_default`) account subscription is empty. -/
theorem default_accountSubscription :
    (default : AccountSubscription) = ⟨[], []⟩ := rfl

/-- Erasing the head it just inserted leaves the pending list unchanged. -/
theorem eraseP_insert_head (h : Nat) (pm : PendingMessage)
    (l : List (Nat × PendingMessage)) :
    (((h, pm) :: l).eraseP fun p => p.1 == h) = l := by
  simp [List.eraseP_cons]

/-- Removing the freshly inserted pending message after a failed transmit
reports one decrement and brings the total size back. -/
theorem removeOnFail_upsert_size (subs : AccountSubscriptions)
    (dst h : Nat) (pm : PendingMessage) :
    (removeOnFail (upsert subs dst fun s =>
        { s with pending_messages := (h, pm) :: s.pending_messages })
        dst h).2 = 1
    ∧ totalSize (removeOnFail (upsert subs dst fun s =>
        { s with pending_messages := (h, pm) :: s.pending_messages })
        dst h).1 + 1
      = totalSize (upsert subs dst fun s =>
        { s with pending_messages := (h, pm) :: s.pending_messages }) := by
  induction subs with
  | nil =>
    rw [upsert.eq_def]
    dsimp only
    rw [removeOnFail.eq_def]
    dsimp only
    rw [if_pos rfl]
    simp only [default_accountSubscription]
    rw [eraseP_insert_head]
    constructor
    · rfl
    · rfl
  | cons p rest ih =>
    obtain ⟨b, s⟩ := p
    rw [upsert.eq_def]
    dsimp only
    by_cases hb : b = dst
    · rw [if_pos hb]
      rw [removeOnFail.eq_def]
      dsimp only
      rw [if_pos hb]
      rw [eraseP_insert_head]
      by_cases he : s.is_empty
      · have h0 := size_eq_zero_of_is_empty s he
        rw [if_pos (show AccountSubscription.is_empty
            ⟨s.pending_messages, s.transactions⟩ = true from he)]
        refine ⟨rfl, ?_⟩
        rw [totalSize_cons]
        unfold AccountSubscription.size at h0 ⊢
        dsimp only
        rw [List.length_cons]
        omega
      · rw [if_neg (show ¬AccountSubscription.is_empty
            ⟨s.pending_messages, s.transactions⟩ = true from he)]
        refine ⟨rfl, ?_⟩
        rw [totalSize_cons, totalSize_cons]
        unfold AccountSubscription.size
        dsimp only
        rw [List.length_cons]
        omega
    · rw [if_neg hb]
      rw [removeOnFail.eq_def]
      dsimp only
      rw [if_neg hb]
      dsimp only
      obtain ⟨ih1, ih2⟩ := ih
      refine ⟨ih1, ?_⟩
      rw [totalSize_cons, totalSize_cons]
      omega

/-- A full `send_message` call keeps the shared counter in step with the
map it acts on (`c` is the other map's contribution to the counter). -/
theorem sendMessageOnMap_size (subs : AccountSubscriptions) (cnt : Nat)
    (dst h expire_at : Nat) (transmitOk : Bool) (c : Nat)
    (hcnt : cnt = totalSize subs + c) :
    (sendMessageOnMap subs cnt dst h expire_at transmitOk).1.2
      = totalSize (sendMessageOnMap subs cnt dst h expire_at transmitOk).1.1
        + c := by
  unfold sendMessageOnMap
  by_cases hocc : hashOccupied subs dst h
  · rw [if_pos hocc]
    exact hcnt
  · rw [if_neg hocc]
    have hup := totalSize_upsert subs dst 1
      (fun s => { s with pending_messages := (h, ⟨expire_at, some ()⟩) :: s.pending_messages })
      (fun s => by
        unfold AccountSubscription.size
        dsimp only
        rw [List.length_cons]
        omega)
    cases transmitOk with
    | true =>
      dsimp only
      rw [if_pos rfl]
      dsimp only
      omega
    | false =>
      dsimp only
      rw [if_neg (by simp)]
      dsimp only
      obtain ⟨h1, h2⟩ := removeOnFail_upsert_size subs dst h ⟨expire_at, some ()⟩
      omega

/-- `subscribe` on a masterchain address, unfolded. -/
theorem subscribe_eq_true (st : SubscriptionState) (addr : Nat) :
    Nodekeeper.subscribe st true addr
      = { st with
          mc_subscriptions := upsert st.mc_subscriptions addr fun s =>
            { s with transactions := s.transactions ++ [⟨false⟩] }
          subscription_count := st.subscription_count + 1 } := rfl

/-- `subscribe` on a non-masterchain address, unfolded. -/
theorem subscribe_eq_false (st : SubscriptionState) (addr : Nat) :
    Nodekeeper.subscribe st false addr
      = { st with
          sc_subscriptions := upsert st.sc_subscriptions addr fun s =>
            { s with transactions := s.transactions ++ [⟨false⟩] }
          subscription_count := st.subscription_count + 1 } := rfl

/-- `applyProcessBlock` on the masterchain map, unfolded. -/
theorem applyProcessBlock_eq_true (st : SubscriptionState)
    (blk : List (Nat × List TransactionRecord)) :
    applyProcessBlock st true blk
      = { st with
          mc_subscriptions := (process_block st.mc_subscriptions blk).1
          subscription_count := st.subscription_count
            - (process_block st.mc_subscriptions blk).2 } := rfl

/-- `applyProcessBlock` on the shard map, unfolded. -/
theorem applyProcessBlock_eq_false (st : SubscriptionState)
    (blk : List (Nat × List TransactionRecord)) :
    applyProcessBlock st false blk
      = { st with
          sc_subscriptions := (process_block st.sc_subscriptions blk).1
          subscription_count := st.subscription_count
            - (process_block st.sc_subscriptions blk).2 } := rfl

/-- C5: in every reachable state of the subscription engine under its
operations (`subscribe`, `send_message` with both transmit outcomes,
`process_block` matching, `subscriptions_gc`), `subscription_count` equals
the sum over the masterchain and shard maps of the number of pending
messages plus the number of transaction broadcast channels. -/
theorem subscription_count_invariant (st : SubscriptionState)
    (hr : Reachable st) :
    st.subscription_count
      = totalSize st.mc_subscriptions + totalSize st.sc_subscriptions := by
  induction hr with
  | init => rfl
  | step hr hstep ih =>
    rename_i s0 s1
    have hchan : ∀ s : AccountSubscription,
        ({ s with transactions := s.transactions ++ [⟨false⟩] }
          : AccountSubscription).size = s.size + 1 := fun s => by
      unfold AccountSubscription.size
      dsimp only
      rw [List.length_append]
      simp only [List.length_cons, List.length_nil]
      omega
    cases hstep with
    | subscribe is_mc addr =>
      cases is_mc with
      | true =>
        rw [subscribe_eq_true]
        dsimp only
        rw [totalSize_upsert _ addr 1 _ hchan]
        omega
      | false =>
        rw [subscribe_eq_false]
        dsimp only
        rw [totalSize_upsert _ addr 1 _ hchan]
        omega
    | send workchain dst h expire_at transmitOk =>
      by_cases hw1 : workchain = MASTERCHAIN_ID
      · subst hw1
        unfold send_message
        rw [if_pos rfl]
        dsimp only
        exact sendMessageOnMap_size _ _ dst h expire_at transmitOk
          (totalSize s0.sc_subscriptions) ih
      · by_cases hw0 : workchain = BASE_WORKCHAIN_ID
        · subst hw0
          unfold send_message
          rw [if_neg (by decide), if_pos rfl]
          dsimp only
          have := sendMessageOnMap_size s0.sc_subscriptions
            s0.subscription_count dst h expire_at transmitOk
            (totalSize s0.mc_subscriptions) (by omega)
          omega
        · unfold send_message
          rw [if_neg hw1, if_neg hw0]
          exact ih
    | processBlock is_mc blk =>
      cases is_mc with
      | true =>
        rw [applyProcessBlock_eq_true]
        dsimp only
        have hpb := process_block_size blk s0.mc_subscriptions
        omega
      | false =>
        rw [applyProcessBlock_eq_false]
        dsimp only
        have hpb := process_block_size blk s0.sc_subscriptions
        omega
    | gc utime =>
      unfold applyGc
      dsimp only
      have hm := subscriptions_gc_size s0.mc_subscriptions utime
      have hs := subscriptions_gc_size s0.sc_subscriptions utime
      omega

/-- C5 (witness): the invariant theorem applied to a concrete reachable
state (one `subscribe` step from the initial state). -/
theorem subscription_count_invariant_witness :
    (Nodekeeper.subscribe SubscriptionState.init true 5).subscription_count
      = totalSize
          (Nodekeeper.subscribe SubscriptionState.init true 5).mc_subscriptions
        + totalSize
          (Nodekeeper.subscribe SubscriptionState.init true 5).sc_subscriptions :=
  subscription_count_invariant _
    (Reachable.step Reachable.init (Step.subscribe true 5))

/-- Removing the pending message just inserted by `upsert` restores the map
exactly, reporting one counter decrement — provided the account's entry, when
it already existed, was not empty (otherwise the cleanup drops it). -/
theorem removeOnFail_upsert_restore (subs : AccountSubscriptions)
    (dst h : Nat) (pm : PendingMessage)
    (hne : ∀ s0, lookupSub subs dst = some s0 → s0.is_empty = false) :
    removeOnFail (upsert subs dst fun s =>
        { s with pending_messages := (h, pm) :: s.pending_messages }) dst h
      = (subs, 1) := by
  induction subs with
  | nil =>
    rw [upsert.eq_def]
    dsimp only
    rw [removeOnFail.eq_def]
    dsimp only
    rw [if_pos rfl]
    simp only [default_accountSubscription]
    rw [eraseP_insert_head]
    rfl
  | cons p rest ih =>
    obtain ⟨b, s⟩ := p
    rw [upsert.eq_def]
    dsimp only
    by_cases hb : b = dst
    · rw [if_pos hb]
      rw [removeOnFail.eq_def]
      dsimp only
      rw [if_pos hb]
      rw [eraseP_insert_head]
      have he : s.is_empty = false := hne s (by
        rw [lookupSub.eq_def]
        dsimp only
        rw [if_pos hb])
      rw [if_neg (show ¬AccountSubscription.is_empty
          ⟨s.pending_messages, s.transactions⟩ = true from by
        cases s
        simp [he])]
    · rw [if_neg hb]
      rw [removeOnFail.eq_def]
      dsimp only
      rw [if_neg hb]
      have hrest : ∀ s0, lookupSub rest dst = some s0 →
          s0.is_empty = false := by
        intro s0 hs0
        refine hne s0 ?_
        rw [lookupSub.eq_def]
        dsimp only
        rw [if_neg hb]
        exact hs0
      rw [ih hrest]

/-- The failed-transmit path of `send_message` on one map returns the map
and counter to exactly their values before the call. -/
theorem sendMessageOnMap_fail (subs : AccountSubscriptions) (cnt : Nat)
    (dst h expire_at : Nat)
    (hocc : hashOccupied subs dst h = false)
    (hne : ∀ s0, lookupSub subs dst = some s0 → s0.is_empty = false) :
    sendMessageOnMap subs cnt dst h expire_at false
      = ((subs, cnt), .transmitError, true) := by
  unfold sendMessageOnMap
  rw [if_neg (by rw [hocc]; exact Bool.false_ne_true)]
  dsimp only
  rw [if_neg (by simp)]
  rw [removeOnFail_upsert_restore subs dst h ⟨expire_at, some ()⟩ hne]
  have hc : cnt + 1 - 1 = cnt := by omega
  rw [hc]

/-- C6 (counterexample): the claimed exact restoration fails when a stale
empty entry sits at the destination account.  Such a state is reachable — a
successful send followed by a `process_block` match empties the account's
entry but leaves it in the map until GC — and a failing `send_message` to
that account then removes the stale entry during its cleanup
(`entry.remove()` in the `Occupied` arm), so the final state differs from
the state before the call. -/
theorem send_message_failure_not_restored_counterexample :
    Reachable ⟨[(5, ⟨[], []⟩)], [], 0⟩
    ∧ send_message ⟨[(5, ⟨[], []⟩)], [], 0⟩ (-1) 5 9 100 false
        = (⟨[], [], 0⟩, .transmitError, true)
    ∧ (⟨[], [], 0⟩ : SubscriptionState) ≠ ⟨[(5, ⟨[], []⟩)], [], 0⟩ := by
  refine ⟨?_, by decide, by decide⟩
  have r1 : Reachable (send_message SubscriptionState.init (-1) 5 9 100 true).1 :=
    Reachable.step Reachable.init (Step.send (-1) 5 9 100 true)
  have r2 : Reachable (applyProcessBlock
      (send_message SubscriptionState.init (-1) 5 9 100 true).1 true
      [(5, [⟨7, some 9⟩])]) :=
    Reachable.step r1 (Step.processBlock true [(5, [⟨7, some 9⟩])])
  have he : applyProcessBlock
      (send_message SubscriptionState.init (-1) 5 9 100 true).1 true
      [(5, [⟨7, some 9⟩])] = ⟨[(5, ⟨[], []⟩)], [], 0⟩ := by decide
  exact he ▸ r2

/-- C6 (amended): when the TCP transmit of `send_message` fails (for a
message whose hash was not already pending, on a supported workchain), the
call removes the pending message it inserted, decrements the counter, and
returns the transmit error; provided the destination's pre-existing account
entry, if any, was non-empty (empty entries only linger between a
`process_block` match and the next GC pass), the engine state is restored to
exactly what it was before the call, and the message counts as transmitted
once.  With a stale empty destination entry the cleanup additionally removes
that entry, as the counterexample shows. -/
theorem send_message_transmit_failure_restores (st : SubscriptionState)
    (workchain : Int) (dst h expire_at : Nat)
    (hwc : workchain = MASTERCHAIN_ID ∨ workchain = BASE_WORKCHAIN_ID)
    (hocc : hashOccupied (if workchain = MASTERCHAIN_ID then
        st.mc_subscriptions else st.sc_subscriptions) dst h = false)
    (hne : ∀ s0, lookupSub (if workchain = MASTERCHAIN_ID then
        st.mc_subscriptions else st.sc_subscriptions) dst = some s0 →
        s0.is_empty = false) :
    send_message st workchain dst h expire_at false
      = (st, .transmitError, true) := by
  rcases hwc with hwc | hwc
  · subst hwc
    rw [if_pos rfl] at hocc hne
    unfold send_message
    rw [if_pos rfl]
    dsimp only
    rw [sendMessageOnMap_fail _ _ dst h expire_at hocc hne]
  · subst hwc
    rw [if_neg (by decide)] at hocc hne
    unfold send_message
    rw [if_neg (by decide), if_pos rfl]
    dsimp only
    rw [sendMessageOnMap_fail _ _ dst h expire_at hocc hne]

/-- C6 (witness): the restoration theorem on a concrete state with one
masterchain account entry holding a single open channel. -/
theorem send_message_transmit_failure_witness :
    send_message ⟨[(5, ⟨[], [⟨false⟩]⟩)], [], 1⟩ (-1) 5 9 100 false
      = (⟨[(5, ⟨[], [⟨false⟩]⟩)], [], 1⟩, .transmitError, true) :=
  send_message_transmit_failure_restores ⟨[(5, ⟨[], [⟨false⟩]⟩)], [], 1⟩
    (-1) 5 9 100 (Or.inl rfl) (by decide)
    (by
      intro s0 hs0
      simp only [MASTERCHAIN_ID, if_pos, lookupSub, reduceIte] at hs0
      cases hs0
      rfl)

/-- C10: a `send_message` call whose message hash is already pending for
the destination account returns the `message already sent` error without
changing the state, without transmitting, and leaving the existing pending
entry untouched. -/
theorem send_message_duplicate_hash (st : SubscriptionState)
    (workchain : Int) (dst h expire_at : Nat) (transmitOk : Bool)
    (hwc : workchain = MASTERCHAIN_ID ∨ workchain = BASE_WORKCHAIN_ID)
    (hocc : hashOccupied (if workchain = MASTERCHAIN_ID then
        st.mc_subscriptions else st.sc_subscriptions) dst h = true) :
    send_message st workchain dst h expire_at transmitOk
      = (st, .alreadySent, false) := by
  rcases hwc with hwc | hwc
  · subst hwc
    rw [if_pos rfl] at hocc
    unfold send_message
    rw [if_pos rfl]
    dsimp only
    unfold sendMessageOnMap
    rw [if_pos hocc]
  · subst hwc
    rw [if_neg (by decide)] at hocc
    unfold send_message
    rw [if_neg (by decide), if_pos rfl]
    dsimp only
    unfold sendMessageOnMap
    rw [if_pos hocc]

/-- C10 (witness): the duplicate-hash theorem on a concrete state with hash
`9` already pending for base-workchain account `5`. -/
theorem send_message_duplicate_hash_witness :
    send_message ⟨[], [(5, ⟨[(9, ⟨100, some ()⟩)], []⟩)], 1⟩ 0 5 9 77 true
      = (⟨[], [(5, ⟨[(9, ⟨100, some ()⟩)], []⟩)], 1⟩, .alreadySent, false) :=
  send_message_duplicate_hash ⟨[], [(5, ⟨[(9, ⟨100, some ()⟩)], []⟩)], 1⟩
    0 5 9 77 true (Or.inr rfl) (by decide)

/-- C7: a pending message whose one-shot sender has not been used yields
exactly one value on its reply channel on either disposal path: the matched
transaction when `process_block` matches it, and the `None` sentinel when
the record is dropped (GC eviction, failed send, or walker cancellation)
without the sender having been taken — so a sender awaiting the channel
always receives exactly one value. -/
theorem pending_reply_exactly_once (pm : PendingMessage) (tx_hash : Nat)
    (hpm : pm.tx = some ()) :
    matchedSends pm tx_hash = [some tx_hash]
    ∧ PendingMessage.dropSends pm = [none] := by
  obtain ⟨e, t⟩ := pm
  dsimp only at hpm
  subst hpm
  exact ⟨rfl, rfl⟩

/-- C7 (witness): the reply-channel theorem on a concrete pending message. -/
theorem pending_reply_exactly_once_witness :
    matchedSends ⟨100, some ()⟩ 42 = [some 42]
    ∧ PendingMessage.dropSends ⟨100, some ()⟩ = [none] :=
  pending_reply_exactly_once ⟨100, some ()⟩ 42 rfl

end Nodekeeper
